import Mathlib

/-!
Verification development for the acorn schema-to-tool converter.

The definitions below are a shallow embedding of the TypeScript sources:
* `src/converter/graphql-schema-converter.ts` (schema traversal, type mapper,
  operation parser),
* `src/converter/graphql-schema-converter-config.ts` (configuration),
* `src/tool/api-function.ts` (tool entity, context scoping, execution).

GraphQL object types form a possibly-cyclic graph, so object and input-object
types are represented by name, resolved through a `SchemaEnv` (the schema's
type registry).  JavaScript object maps keeping insertion order are embedded
as association lists.  Thrown JS `Error` values are embedded as `Except` with
a dedicated error datatype `ConvError` carrying the same message text.
-/

namespace Acorn

/-- JS `String.prototype.toLowerCase()`, embedded as a character-wise
lowercase map (the names involved are ASCII). -/
def toLowerCase (s : String) : String :=
  ⟨s.data.map Char.toLower⟩

/-- A JSON-like argument value (`unknown` in the TS sources); only the shape
needed by the tool-side claims is modelled. -/
inductive JValue where
  | str (v : String)
  | num (v : Int)
  | bool (v : Bool)
  | null
deriving DecidableEq, Repr

/-- `FunctionDefinitionArgument` from `src/tool/function-definition`:
`{ type, items?, enum?, description? }`.  The `enum` set is kept as the
insertion-ordered list of value names. -/
inductive FunctionDefinitionArgument where
  | mk (typeName : String) (items : Option FunctionDefinitionArgument)
      (enumVals : Option (List String)) (description : Option String)

def FunctionDefinitionArgument.typeName : FunctionDefinitionArgument → String
  | .mk t _ _ _ => t

def FunctionDefinitionArgument.items :
    FunctionDefinitionArgument → Option FunctionDefinitionArgument
  | .mk _ i _ _ => i

def FunctionDefinitionArgument.enumVals :
    FunctionDefinitionArgument → Option (List String)
  | .mk _ _ e _ => e

def FunctionDefinitionArgument.description :
    FunctionDefinitionArgument → Option String
  | .mk _ _ _ d => d

/-- `argDef.description = description` (mutating assignment in TS). -/
def FunctionDefinitionArgument.setDescription :
    FunctionDefinitionArgument → Option String → FunctionDefinitionArgument
  | .mk t i e _, d => .mk t i e d

/-- `FunctionDefinitionParameters`: `{ type: "object", properties, required }`.
`properties` is a JS object map, embedded as an insertion-ordered association
list. -/
structure FunctionDefinitionParameters where
  type : String
  properties : List (String × FunctionDefinitionArgument)
  required : List String

/-- JS `obj[key] = value`: replaces the value in place if the key exists,
otherwise appends, preserving insertion order. -/
def insertProp (props : List (String × FunctionDefinitionArgument))
    (key : String) (v : FunctionDefinitionArgument) :
    List (String × FunctionDefinitionArgument) :=
  if props.any (fun kv => kv.fst == key) then
    props.map (fun kv => if kv.fst == key then (kv.fst, v) else kv)
  else
    props ++ [(key, v)]

/-- `FunctionDefinition`: `{ name, description?, parameters }`. -/
structure FunctionDefinition where
  name : String
  description : Option String
  parameters : FunctionDefinitionParameters

/-- GraphQL input types (`GraphQLInputType`).  Input-object types are
referenced by name and resolved through the `SchemaEnv`, mirroring GraphQL's
reference semantics for possibly-recursive type definitions.  Enums carry
their declared value names. -/
inductive GraphQLInputType where
  | scalar (name : String)
  | enum (name : String) (values : List String)
  | list (ofType : GraphQLInputType)
  | nonNull (ofType : GraphQLInputType)
  | inputObject (name : String)
deriving DecidableEq, Repr

/-- GraphQL output types (`GraphQLOutputType`); object types referenced by
name. -/
inductive GraphQLOutputType where
  | scalar (name : String)
  | enum (name : String)
  | object (name : String)
  | list (ofType : GraphQLOutputType)
  | nonNull (ofType : GraphQLOutputType)
deriving DecidableEq, Repr

/-- A field of an input-object type (`GraphQLInputField`).  The
`resolvedDescription` field stands for the already-resolved value of
`nestedField.description?.trim() ?? parseNodeDescription(...)` — the
description text is threaded through unchanged by the traversal and no claim
depends on how it was recovered from source positions. -/
structure GraphQLInputField where
  name : String
  type : GraphQLInputType
  resolvedDescription : Option String
deriving DecidableEq, Repr

/-- An argument of a field (`GraphQLArgument`); `resolvedDescription` as in
`GraphQLInputField`. -/
structure GraphQLArgument where
  name : String
  type : GraphQLInputType
  resolvedDescription : Option String
deriving DecidableEq, Repr

/-- A field of an object type (`GraphQLField`); `description` is the field's
schema description (used for the generated function description). -/
structure GraphQLField where
  name : String
  type : GraphQLOutputType
  args : List GraphQLArgument
  description : Option String := none
deriving DecidableEq, Repr

/-- The schema's type registry: object-type fields and input-object-type
fields by type name, plus the root operation fields
(`schema.getQueryType().getFields()` / `getMutationType().getFields()`). -/
structure SchemaEnv where
  objectTypes : List (String × List GraphQLField)
  inputObjectTypes : List (String × List GraphQLInputField)
  queryFields : List GraphQLField
  mutationFields : List GraphQLField

/-- `objectType.getFields()` (an unknown name yields no fields). -/
def SchemaEnv.objFieldsOf (env : SchemaEnv) (name : String) :
    List GraphQLField :=
  ((env.objectTypes.find? (fun kv => kv.fst == name)).map Prod.snd).getD []

/-- `inputType.getFields()` for an input-object type. -/
def SchemaEnv.inputFieldsOf (env : SchemaEnv) (name : String) :
    List GraphQLInputField :=
  ((env.inputObjectTypes.find? (fun kv => kv.fst == name)).map Prod.snd).getD []

/-- Renders the exact textual GraphQL type signature (including list and
non-null wrappers).  This embeds the Type-Signature Renderer
(`printFieldType` / `printArgumentType` / `extractTypeFromDummy`): the source
prints a synthetic one-field dummy type through graphql's `printType` and
extracts the signature substring after `name:`, which is exactly the
standard rendering of the type. -/
def typeSignature : GraphQLInputType → String
  | .scalar n => n
  | .enum n _ => n
  | .list t => "[" ++ typeSignature t ++ "]"
  | .nonNull t => typeSignature t ++ "!"
  | .inputObject n => n

/-- Thrown `Error` values of the converter, with their exact message text
(see `ConvError.message`). -/
inductive ConvError where
  | unsupportedType (t : GraphQLInputType)
  | noFields (operationName : String)
  | unexpectedTypeNode (kind : String)
  | noDefinitions
  | notOperation (kind : String)
  | noSubscriptions (name : String)
  | constructionInvalid (functionName : String) (errorMessage : Option String)
deriving DecidableEq, Repr

/-- The message string of each thrown `Error`, verbatim from the source (for
`constructionInvalid` the interpolated `${apiExecutor}` is elided, and the
optional message renders as JS renders `undefined`). -/
def ConvError.message : ConvError → String
  | .unsupportedType t => "Unsupported type: " ++ typeSignature t
  | .noFields op => "Expected at least one field on path: " ++ op
  | .unexpectedTypeNode k => "Unexpected type: " ++ k
  | .noDefinitions => "Operation definition contains no definitions"
  | .notOperation k => "Expected definition to be an operation, but got: " ++ k
  | .noSubscriptions n => "Do not support subscriptions: " ++ n
  | .constructionInvalid n m =>
      "Function [" ++ n ++ "] invalid for API: " ++ m.getD "undefined"

/-- `scalarTypeMap` with `defaultScalarType = "string"` fallback. -/
def scalarTypeMap (name : String) : String :=
  if name == "Int" then "integer"
  else if name == "Float" then "number"
  else if name == "String" then "string"
  else if name == "Boolean" then "boolean"
  else if name == "ID" then "string"
  else "string"

/-- `UnwrappedType`: `{ type, required }`. -/
structure UnwrappedType where
  type : GraphQLInputType
  required : Bool
deriving DecidableEq, Repr

/-- `convertRequired`: strips one non-null wrapper and records whether it was
present. -/
def convertRequired : GraphQLInputType → UnwrappedType
  | .nonNull t => ⟨t, true⟩
  | t => ⟨t, false⟩

/-- `convertToArgument`: the type mapper.  Scalars map through
`scalarTypeMap`; enums map to `string` plus the declared value names; lists
recurse into the element after stripping one non-null wrapper; anything else
(input objects reached directly, bare non-null) throws `Unsupported type`. -/
def convertToArgument :
    GraphQLInputType → Except ConvError FunctionDefinitionArgument
  | .scalar n => .ok (.mk (scalarTypeMap n) none none none)
  | .enum _ vals => .ok (.mk "string" none (some vals) none)
  | .list t => do
      let items ← convertToArgument (convertRequired t).type
      .ok (.mk "array" (some items) none none)
  | t => .error (.unsupportedType t)
termination_by t => sizeOf t
decreasing_by cases t <;> (simp [convertRequired]; try omega)

/-- `unwrapType` on output types: recursively strips list and non-null
wrappers. -/
def unwrapType : GraphQLOutputType → GraphQLOutputType
  | .list t => unwrapType t
  | .nonNull t => unwrapType t
  | t => t

/-- `combineStrings(prefix, suffix)`. -/
def combineStrings (pfx sfx : String) : String :=
  pfx ++ (if pfx ≠ "" then "_" else "") ++ sfx

/-- `VisitContext` (the Traversal Context); `pfx` embeds the field `prefix`,
`path` holds the names of the object types already visited on the current
branch. -/
structure VisitContext where
  operationName : String
  pfx : String
  numArgs : Nat
  path : List String
deriving DecidableEq, Repr

/-- `VisitContext.nested(fieldName, type, additionalArgs)`. -/
def VisitContext.nested (ctx : VisitContext) (fieldName : String)
    (typeName : String) (additionalArgs : Nat) : VisitContext :=
  { operationName := ctx.operationName ++ "." ++ fieldName
    pfx := combineStrings ctx.pfx fieldName
    numArgs := ctx.numArgs + additionalArgs
    path := ctx.path ++ [typeName] }

/-- The record returned by `processField`. -/
structure ProcessedField where
  argName : String
  queryHeader : String
  queryBody : String
deriving DecidableEq, Repr

/-- `processField`: maps one flattened argument, appends to the Parameter
Schema (returned as the updated parameters, since the TS code mutates
`params` in place), and yields the punctuation-sensitive header and body
fragments. -/
def processField (params : FunctionDefinitionParameters) (ctx : VisitContext)
    (numArgs : Nat) (unwrappedType : UnwrappedType) (argName : String)
    (originalName : String) (description : Option String) :
    Except ConvError (FunctionDefinitionParameters × ProcessedField) := do
  let argDef ← convertToArgument unwrappedType.type
  let argDef := argDef.setDescription description
  let queryBody := if numArgs > 0 then ", " else ""
  let queryHeader := if ctx.numArgs + numArgs > 0 then ", " else ""
  let required' :=
    if unwrappedType.required then params.required ++ [argName]
    else params.required
  let props' := insertProp params.properties argName argDef
  let argNameRef := "$" ++ argName
  .ok ({ params with required := required', properties := props' },
    ⟨argNameRef, queryHeader, queryBody ++ originalName ++ ": " ++ argNameRef⟩)

/-- The inner loop of `visit`'s argument flattening: processes the fields of
one input-object argument in declaration order.  Returns the updated
parameters, the header fragment, the body fragment, and the updated running
argument count. -/
def processInputFields (env : SchemaEnv) (ctx : VisitContext)
    (fields : List GraphQLInputField) (params : FunctionDefinitionParameters)
    (numArgs : Nat) :
    Except ConvError (FunctionDefinitionParameters × String × String × Nat) :=
  match fields with
  | [] => .ok (params, "", "", numArgs)
  | nestedField :: rest => do
      let unwrappedType := convertRequired nestedField.type
      let (params', pd) ← processField params ctx numArgs unwrappedType
        (combineStrings ctx.pfx nestedField.name) nestedField.name
        nestedField.resolvedDescription
      let typeString := typeSignature nestedField.type
      let (params'', qp, qb, numArgs') ←
        processInputFields env ctx rest params' (numArgs + 1)
      .ok (params'',
        pd.queryHeader ++ pd.argName ++ ": " ++ typeString ++ qp,
        pd.queryBody ++ qb, numArgs')

/-- The argument loop of `visit` (`for (const arg of field.args)`): flattens
input-object arguments through `processInputFields` and processes other
arguments directly.  Returns the updated parameters, the header fragment,
the body fragment (the text between the parentheses), and the final local
argument count. -/
def processArgs (env : SchemaEnv) (ctx : VisitContext)
    (args : List GraphQLArgument) (params : FunctionDefinitionParameters)
    (numArgs : Nat) :
    Except ConvError (FunctionDefinitionParameters × String × String × Nat) :=
  match args with
  | [] => .ok (params, "", "", numArgs)
  | arg :: rest => do
      let unwrappedType := convertRequired arg.type
      match unwrappedType.type with
      | .inputObject iname => do
          let (params', qp, qb, numArgs') ← processInputFields env ctx
            (env.inputFieldsOf iname) params numArgs
          let (params'', qp', qb', numArgs'') ←
            processArgs env ctx rest params' numArgs'
          .ok (params'', qp ++ qp',
            arg.name ++ ": \x7b " ++ qb ++ " \x7d" ++ qb', numArgs'')
      | _ => do
          let (params', pd) ← processField params ctx numArgs unwrappedType
            (combineStrings ctx.pfx arg.name) arg.name
            arg.resolvedDescription
          let typeString := typeSignature arg.type
          let (params'', qp', qb', numArgs') ←
            processArgs env ctx rest params' (numArgs + 1)
          .ok (params'',
            pd.queryHeader ++ pd.argName ++ ": " ++ typeString ++ qp',
            pd.queryBody ++ qb', numArgs')

/-- The result record of `visit`: `{ success, queryParams, queryBody }`. -/
structure VisitResult where
  success : Bool
  queryParams : String
  queryBody : String
deriving DecidableEq, Repr

/-- `GraphQLSchemaConverterConfig`: operation filter and maximum traversal
depth (default `3`). -/
structure GraphQLSchemaConverterConfig where
  operationFilter : String → String → Bool
  maxDepth : Nat

def GraphQLSchemaConverterConfig.DEFAULT : GraphQLSchemaConverterConfig :=
  ⟨fun _ _ => true, 3⟩

mutual

/-- `GraphQLSchemaConverter.visit`: the Schema Traversal Engine.  Returns the
updated Parameter Schema (mutated in place in TS) together with the
`{success, queryParams, queryBody}` record; thrown errors surface as
`Except.error`.  The cycle and depth guards at the top make the recursion
well-founded: every recursive call goes through `visitChildren`, which is
only entered once `context.path.length + 1 ≤ maxDepth` is established. -/
def visit (env : SchemaEnv) (cfg : GraphQLSchemaConverterConfig)
    (field : GraphQLField) (params : FunctionDefinitionParameters)
    (context : VisitContext) :
    Except ConvError (FunctionDefinitionParameters × VisitResult) :=
  match unwrapType field.type with
  | .object tname =>
      if context.path.contains tname then
        -- "Detected cycle on operation ... Aborting traversal."
        .ok (params, ⟨false, "", ""⟩)
      else if hdep : cfg.maxDepth < context.path.length + 1 then
        -- "Aborting traversal because depth limit exceeded ..."
        .ok (params, ⟨false, "", ""⟩)
      else do
        let (params1, queryParams1, argBody, numArgs) ←
          processArgs env context field.args params 0
        let argText := if field.args.length > 0 then "(" ++ argBody ++ ")" else ""
        let (params2, queryParamsN, queryBodyN, atLeastOneField) ←
          visitChildren env cfg tname (env.objFieldsOf tname) context numArgs
            params1 (Nat.le_of_not_lt hdep)
        if atLeastOneField then
          .ok (params2, ⟨true, queryParams1 ++ queryParamsN,
            field.name ++ argText ++ " \x7b\n" ++ queryBodyN ++ "\x7d" ++ "\n"⟩)
        else
          .error (.noFields context.operationName)
  | _ => do
      let (params1, queryParams1, argBody, _) ←
        processArgs env context field.args params 0
      let argText := if field.args.length > 0 then "(" ++ argBody ++ ")" else ""
      .ok (params1, ⟨true, queryParams1, field.name ++ argText ++ "\n"⟩)
termination_by (cfg.maxDepth + 1 - context.path.length, 1, 0)
decreasing_by
  exact Prod.Lex.right _ (Prod.Lex.left _ _ (by omega))

/-- The object-expansion loop of `visit`: visits every declared field of the
object type being expanded, deriving a child context via
`context.nested(fieldName, objectType, numArgs)`, concatenating the
children's fragments and or-ing their `success` flags. -/
def visitChildren (env : SchemaEnv) (cfg : GraphQLSchemaConverterConfig)
    (objName : String) (fields : List GraphQLField) (context : VisitContext)
    (numArgs : Nat) (params : FunctionDefinitionParameters)
    (h : context.path.length + 1 ≤ cfg.maxDepth) :
    Except ConvError (FunctionDefinitionParameters × String × String × Bool) :=
  match fields with
  | [] => .ok (params, "", "", false)
  | nestedField :: rest => do
      let (params', res) ← visit env cfg nestedField params
        (context.nested nestedField.name objName numArgs)
      let (params'', qp, qb, any') ←
        visitChildren env cfg objName rest context numArgs params' h
      .ok (params'', res.queryParams ++ qp, res.queryBody ++ qb,
        res.success || any')
termination_by (cfg.maxDepth + 1 - context.path.length, 0, fields.length)
decreasing_by
  · apply Prod.Lex.left
    simp [VisitContext.nested]
    omega
  · exact Prod.Lex.right _ (Prod.Lex.right _ (by simp))

end

/-! ## Tool entity, context scoping, execution (`src/tool/api-function.ts`) -/

/-- `ValidationResult`: validity flag plus optional error message. -/
structure ValidationResult where
  valid : Bool
  errorMessage : Option String
deriving DecidableEq, Repr

/-- The executor boundary (`APIQueryExecutor`, external interface):
definition validation, argument validation and query execution.  Execution
is embedded as a pure function from query text and variables to the result
text. -/
structure APIQueryExecutor where
  validateDef : FunctionDefinition → ValidationResult
  validateArgs :
    FunctionDefinition → List (String × JValue) → ValidationResult
  executeQuery : String → List (String × JValue) → String

/-- `APIFunction`: `{ function, contextKeys, apiQuery, apiExecutor }`.  The
context-key set is kept as a list of names. -/
structure APIFunction where
  function : FunctionDefinition
  contextKeys : List String
  apiQuery : String
  apiExecutor : APIQueryExecutor

/-- The `APIFunction` constructor: validates the definition against the
executor and throws (`Except.error`) when it is rejected. -/
def APIFunction.create (func : FunctionDefinition) (contextKeys : List String)
    (apiQuery : String) (apiExecutor : APIQueryExecutor) :
    Except ConvError APIFunction :=
  let validationResult := apiExecutor.validateDef func
  if validationResult.valid then .ok ⟨func, contextKeys, apiQuery, apiExecutor⟩
  else .error (.constructionInvalid func.name validationResult.errorMessage)

def APIFunction.getName (f : APIFunction) : String :=
  f.function.name

/-- `APIFunction.getFieldFilter`: keeps a field name iff its lowercase form
is not among the lowercased context keys. -/
def getFieldFilter (fieldList : List String) : String → Bool :=
  fun field => !((fieldList.map toLowerCase).contains (toLowerCase field))

/-- `APIFunction.filterObjectKeys`: rebuilds the properties map keeping only
keys accepted by the filter, preserving insertion order. -/
def filterObjectKeys (filter : String → Bool)
    (data : List (String × FunctionDefinitionArgument)) :
    List (String × FunctionDefinitionArgument) :=
  data.filter (fun kv => filter kv.fst)

/-- `APIFunction.getModelFunction`: the model-facing Tool Definition, with
every property and required entry whose name matches a context key
(case-insensitively) dropped. -/
def APIFunction.getModelFunction (f : APIFunction) : FunctionDefinition :=
  let fieldFilter := getFieldFilter f.contextKeys
  { name := f.function.name
    description := f.function.description
    parameters :=
      { type := f.function.parameters.type
        required := f.function.parameters.required.filter fieldFilter
        properties := filterObjectKeys fieldFilter
          f.function.parameters.properties } }

/-- Case-insensitive lookup in a context/argument map (first match wins). -/
def mapGetCI (m : List (String × JValue)) (key : String) : Option JValue :=
  (m.find? (fun kv => toLowerCase kv.fst == toLowerCase key)).map Prod.snd

/-- Modelled from the spec: `addOrOverrideFromContext` (imported from
`../utils`, which is not under `src/`).  Per §4.5, at execution time
"argument values for context keys are not supplied by the caller's arguments
but substituted from a runtime context map keyed by the same names
(case-insensitive), overriding/adding to whatever the caller passed": for
each context key that the context map supplies (matched case-insensitively),
the caller's entry is overridden (or an entry added). -/
def addOrOverrideFromContext (args : List (String × JValue))
    (keys : List String) (context : List (String × JValue)) :
    List (String × JValue) :=
  match keys with
  | [] => args
  | k :: rest =>
      let acc := addOrOverrideFromContext args rest context
      match mapGetCI context k with
      | some v =>
          (k, v) :: acc.filter (fun kv => toLowerCase kv.fst != toLowerCase k)
      | none => acc

/-- Modelled from the spec: `DefaultContext` (from `./context`, not under
`src/`) is the runtime context map with no entries. -/
def DefaultContext : List (String × JValue) := []

/-- `APIFunction.execute`: merges context values for the context keys into
the caller's arguments and hands the query and variables to the executor. -/
def APIFunction.execute (f : APIFunction)
    (argumentsNode : List (String × JValue))
    (context : List (String × JValue)) : String :=
  f.apiExecutor.executeQuery f.apiQuery
    (addOrOverrideFromContext argumentsNode f.contextKeys context)

/-- `APIFunction.validate`: validates the caller's arguments against the
model-facing definition (`getModelFunction`), not the full one. -/
def APIFunction.validate (f : APIFunction)
    (argumentsNode : List (String × JValue)) : ValidationResult :=
  f.apiExecutor.validateArgs f.getModelFunction argumentsNode

/-- `APIFunction.createInvalidCallMessage`: the fixed-format retry message.
JS renders an absent `errorMessage` as `undefined` in the template string. -/
def createInvalidCallMessage (functionName : String)
    (errorMessage : Option String) : String :=
  "It looks like you tried to call function `" ++ functionName ++ "`, " ++
  "but this has failed with the following error: " ++
  errorMessage.getD "undefined" ++ ". " ++
  "Please retry to call the function again. Send ONLY the JSON as a response."

/-- `APIFunction.validateAndExecute`: executes when validation passes,
otherwise returns the retry message instead of throwing. -/
def APIFunction.validateAndExecute (f : APIFunction)
    (argumentsNode : List (String × JValue))
    (context : List (String × JValue)) : String :=
  let validationResult := f.validate argumentsNode
  if validationResult.valid then f.execute argumentsNode context
  else createInvalidCallMessage f.function.name validationResult.errorMessage

/-- `APIFunction.validateAndExecuteFromString`: parses the JSON argument
payload and reports a "Malformed JSON" variant of the retry message on parse
failure.  `JSON.parse` is a JS builtin (an external boundary), embedded as
the explicit `jsonParse` parameter; its `Except.error` payload models the
thrown error's `message`. -/
def APIFunction.validateAndExecuteFromString (f : APIFunction)
    (jsonParse : String → Except String (List (String × JValue)))
    (argsJson : String) (context : List (String × JValue)) : String :=
  match jsonParse argsJson with
  | .ok parsedArguments => f.validateAndExecute parsedArguments context
  | .error e =>
      createInvalidCallMessage f.function.name (some ("Malformed JSON: " ++ e))

/-- `ToolCall`: `{ name, arguments }`. -/
structure ToolCall where
  name : String
  arguments : List (String × JValue)

/-- `new Map(toolDefinitions.map(t => [t.getName(), t]))` followed by
`.get(name)`: with duplicate names the later entry overwrites the earlier
one, so the lookup yields the last tool with that name. -/
def toolsMapGet (toolDefinitions : List APIFunction) (name : String) :
    Option APIFunction :=
  toolDefinitions.reverse.find? (fun t => t.getName == name)

/-- `APIFunction.executeTools` on a single `ToolCall`: looks the tool up by
name and runs `validateAndExecute` with a fresh `DefaultContext`; a missing
tool gives `undefined`, and `res || \x22\x22` turns it into the empty
string. -/
def executeToolsSingle (toolsToCall : ToolCall)
    (toolDefinitions : List APIFunction) : String :=
  match toolsMapGet toolDefinitions toolsToCall.name with
  | some apiFunction =>
      apiFunction.validateAndExecute toolsToCall.arguments DefaultContext
  | none => ""

/-- `APIFunction.executeTools` on an array: `Promise.all` over the calls,
each resolved independently through the single-call overload, preserving
order. -/
def executeToolsMany (toolsToCall : List ToolCall)
    (toolDefinitions : List APIFunction) : List String :=
  toolsToCall.map (fun toolCall => executeToolsSingle toolCall toolDefinitions)

/-! ## Schema-level conversion (`convertSchema` and the per-operation
boundary) -/

/-- `GraphQLSchemaConverter.initializeFunctionDefinition`. -/
def initializeFunctionDefinition (name : String)
    (description : Option String) : FunctionDefinition :=
  ⟨name, description, ⟨"object", [], []⟩⟩

/-- `convertToApiFunction`: builds the function definition, runs the
traversal from a fresh context, assembles the query text and hands both to
the function factory (`StandardAPIFunctionFactory.create`, which constructs
the `APIFunction` with the factory's executor and context keys). -/
def convertToApiFunction (env : SchemaEnv)
    (cfg : GraphQLSchemaConverterConfig) (apiExecutor : APIQueryExecutor)
    (contextKeys : List String) (operationType : String)
    (field : GraphQLField) : Except ConvError APIFunction := do
  let functionDef :=
    initializeFunctionDefinition field.name (field.description.map String.trim)
  let operationName := toLowerCase operationType ++ "." ++ field.name
  let queryHeader := toLowerCase operationType ++ " " ++ field.name ++ "("
  let (params', res) ← visit env cfg field functionDef.parameters
    ⟨operationName, "", 0, []⟩
  let query :=
    queryHeader ++ res.queryParams ++ ") \x7b\n" ++ res.queryBody ++ "\n\x7d"
  APIFunction.create { functionDef with parameters := params' } contextKeys
    query apiExecutor

/-- `createApiFunctionFromGraphQLOperation`: applies the operation filter and
converts; any error thrown by the conversion is caught (logged) and the
field yields `null`. -/
def createApiFunctionFromGraphQLOperation (env : SchemaEnv)
    (cfg : GraphQLSchemaConverterConfig) (apiExecutor : APIQueryExecutor)
    (contextKeys : List String) (operationName : String)
    (field : GraphQLField) : Option APIFunction :=
  if cfg.operationFilter operationName field.name then
    (convertToApiFunction env cfg apiExecutor contextKeys operationName
      field).toOption
  else
    none

/-- `convertSchema`: converts every query root field then every mutation
root field, dropping the `null` results (`.filter(Boolean)`). -/
def convertSchema (env : SchemaEnv) (cfg : GraphQLSchemaConverterConfig)
    (apiExecutor : APIQueryExecutor) (contextKeys : List String) :
    List APIFunction :=
  ((env.queryFields.map
    (createApiFunctionFromGraphQLOperation env cfg apiExecutor contextKeys
      "query")).filterMap id)
  ++ ((env.mutationFields.map
    (createApiFunctionFromGraphQLOperation env cfg apiExecutor contextKeys
      "mutation")).filterMap id)

/-! ## Operation parser (`convertOperations` / `convertOperationDefinition`)
-/

/-- The schema-language AST `TypeNode` of a declared variable. -/
inductive TypeNode where
  | named (name : String)
  | listType (ofType : TypeNode)
  | nonNullType (ofType : TypeNode)
deriving DecidableEq, Repr

/-- `convertType` of the operation parser: lists recurse into the element,
named types map through the scalar map; any other node kind (a non-null
wrapper not stripped by the caller) throws `Unexpected type`. -/
def convertType : TypeNode → Except ConvError FunctionDefinitionArgument
  | .listType t => do
      let items ← convertType t
      .ok (.mk "array" (some items) none none)
  | .named n => .ok (.mk (scalarTypeMap n) none none none)
  | .nonNullType _ => .error (.unexpectedTypeNode "NonNullType")

/-- Operation kinds; subscriptions are rejected. -/
inductive OperationTypeNode where
  | query
  | mutation
  | subscription
deriving DecidableEq, Repr

/-- A declared variable of a standalone operation
(`VariableDefinitionNode`); `resolvedDescription` stands for the resolved
`parseNodeDescription(operationDefinition, varDef.loc?.start,
node.loc?.start)` value. -/
structure VariableDefinitionNode where
  name : String
  type : TypeNode
  resolvedDescription : Option String
deriving DecidableEq, Repr

/-- A standalone operation definition (`OperationDefinitionNode`);
`resolvedComment` stands for the resolved function comment. -/
structure OperationDefinitionNode where
  operation : OperationTypeNode
  name : Option String
  variableDefinitions : List VariableDefinitionNode
  resolvedComment : Option String
deriving DecidableEq, Repr

/-- One step of the variable loop of `convertOperationDefinition`: marks the
variable required iff its type carries a top-level non-null wrapper, strips
that wrapper, maps the type and appends into the Parameter Schema. -/
def convertVariableDefinition (ps : FunctionDefinitionParameters)
    (varDef : VariableDefinitionNode) :
    Except ConvError FunctionDefinitionParameters := do
  let argumentName := varDef.name
  let required := match varDef.type with
    | .nonNullType _ => true
    | _ => false
  let strippedType := match varDef.type with
    | .nonNullType t => t
    | t => t
  let argumentDef ← convertType strippedType
  let argumentDef := argumentDef.setDescription varDef.resolvedDescription
  let required' :=
    if required then ps.required ++ [argumentName] else ps.required
  .ok ⟨ps.type, insertProp ps.properties argumentName argumentDef, required'⟩

/-- `convertOperationDefinition`: rejects subscriptions, then builds the
Tool Definition from the declared variables (no flattening). -/
def convertOperationDefinition (node : OperationDefinitionNode) :
    Except ConvError FunctionDefinition := do
  if node.operation = .subscription then
    .error (.noSubscriptions (node.name.getD ""))
  else do
    let functionName := node.name.getD ""
    let params ← node.variableDefinitions.foldlM convertVariableDefinition
      ⟨"object", ([] : List (String × FunctionDefinitionArgument)), []⟩
    .ok ⟨functionName, node.resolvedComment, params⟩

/-! ## Shared helper definitions for the theorems -/

/-- The Parameter Schema invariant: every name in `required` is a key of
`properties`. -/
def reqSubsetProps (p : FunctionDefinitionParameters) : Prop :=
  ∀ r ∈ p.required, r ∈ p.properties.map Prod.fst

/-- Renders the segments of one punctuation scope: `", "` is placed before
every segment whose global index (baseline `k` plus local position) is
positive. -/
def commaSep (k : Nat) (segs : List String) : String :=
  match segs with
  | [] => ""
  | s :: rest => (if 0 < k then ", " else "") ++ s ++ commaSep (k + 1) rest

/-- The flat variable declarations contributed by one argument list: an
input-object argument contributes one declaration per input field, any other
argument contributes its own declaration. -/
def argDecls (env : SchemaEnv) (ctx : VisitContext) :
    List GraphQLArgument → List String
  | [] => []
  | arg :: rest =>
      (match (convertRequired arg.type).type with
        | .inputObject iname =>
            (env.inputFieldsOf iname).map
              (fun f => "$" ++ combineStrings ctx.pfx f.name ++ ": " ++
                typeSignature f.type)
        | _ =>
            ["$" ++ combineStrings ctx.pfx arg.name ++ ": " ++
              typeSignature arg.type]) ++ argDecls env ctx rest

/-- A concrete always-accepting executor (the shape of
`VoidApiQueryExecutor`, an executor that performs no real I/O). -/
def acceptAllExec : APIQueryExecutor :=
  ⟨fun _ => ⟨true, none⟩, fun _ _ => ⟨true, none⟩, fun _ _ => ""⟩

/-- A concrete executor that rejects every argument map (for exercising the
validation-failure paths). -/
def rejectArgsExec : APIQueryExecutor :=
  ⟨fun _ => ⟨true, none⟩, fun _ _ => ⟨false, some "args invalid"⟩,
    fun _ _ => ""⟩

/-- Modelled from the spec: the executor boundary's argument validation
(`validate(toolDefinition, candidateArgs)`, §6) checks the caller's
arguments against the tool definition's declared schema; the structural part
relevant here is that every name in the definition's `required` list must be
present among the argument keys.  The concrete executor implementations live
outside `src/`. -/
def specStructuralValidate (fd : FunctionDefinition)
    (args : List (String × JValue)) : ValidationResult :=
  if fd.parameters.required.all (fun r => args.any (fun kv => kv.fst == r))
  then ⟨true, none⟩
  else ⟨false, some "missing required argument"⟩

/-- An executor whose argument validation is `specStructuralValidate`. -/
def specStructuralExecutor : APIQueryExecutor :=
  ⟨fun _ => ⟨true, none⟩, specStructuralValidate, fun _ _ => ""⟩

/-- A schema whose root field `top` returns `Obj`, which has two sibling
fields `a` and `b`, each declaring one scalar argument. -/
def envSiblingArgs : SchemaEnv :=
  ⟨[("Obj", [⟨"a", .scalar "Int", [⟨"x", .scalar "Int", none⟩], none⟩,
             ⟨"b", .scalar "Int", [⟨"y", .scalar "Int", none⟩], none⟩])],
   [], [⟨"top", .object "Obj", [], none⟩], []⟩

/-- A schema whose root field `m` declares a scalar argument `first`
followed by an input-object argument `obj` of type `Inp`. -/
def envNestedInput : SchemaEnv :=
  ⟨[], [("Inp", [⟨"f1", .nonNull (.scalar "Int"), none⟩,
                 ⟨"f2", .scalar "String", none⟩])],
   [⟨"m", .scalar "Int", [⟨"first", .scalar "Int", none⟩,
                          ⟨"obj", .inputObject "Inp", none⟩], none⟩], []⟩

/-! ## Theorems -/

/-- C2: for every schema — including one whose object return types form a
self-referential or mutually cyclic graph — `visit` terminates (it is a
total function, accepted by well-founded recursion on the remaining depth
budget): whenever the field's list/non-null-unwrapped return type is an
object type already in `context.path`, or `context.path.length + 1` exceeds
the configured `maxDepth`, it returns `success = false` with empty
`queryParams` and `queryBody` and the unchanged Parameter Schema, without
recursing; and every recursive call derives its context through
`VisitContext.nested`, which extends the path by exactly one object type, so
the recursion depth is bounded by `maxDepth`. -/
theorem claim2_cycle_depth_guard :
    (∀ (env : SchemaEnv) (cfg : GraphQLSchemaConverterConfig)
      (field : GraphQLField) (params : FunctionDefinitionParameters)
      (context : VisitContext) (tname : String),
      unwrapType field.type = .object tname →
      (context.path.contains tname = true ∨
        cfg.maxDepth < context.path.length + 1) →
      visit env cfg field params context = .ok (params, ⟨false, "", ""⟩))
    ∧ (∀ (context : VisitContext) (fieldName typeName : String) (n : Nat),
      (context.nested fieldName typeName n).path =
        context.path ++ [typeName]) := by
  constructor
  · intro env cfg field params context tname hty hguard
    rw [visit.eq_def, hty]
    dsimp only
    by_cases hc : context.path.contains tname = true
    · rw [if_pos hc]
    · rcases hguard with h | h
      · exact absurd h hc
      · rw [if_neg hc, dif_pos h]
  · intro context fieldName typeName n
    simp [VisitContext.nested]

/-- Witness for C2 at a concrete self-referential schema: the object type
`A` is already on the path, so the subtree is cut with `success = false` and
empty fragments. -/
theorem claim2_witness :
    visit ⟨[("A", [⟨"self", .object "A", [], none⟩])], [], [], []⟩ .DEFAULT
      ⟨"self", .object "A", [], none⟩ ⟨"object", [], []⟩
      ⟨"query.top.self", "", 0, ["A"]⟩
      = .ok (⟨"object", [], []⟩, ⟨false, "", ""⟩) :=
  claim2_cycle_depth_guard.1 _ _ _ _ _ "A" rfl (Or.inl (by decide))

/-- C6: during object expansion, if zero of the object type's child fields
return `success` (for instance all cut by the cycle/depth guard), `visit`
throws the `Expected at least one field on path: <operation path>` error,
which identifies the operation path and is distinct from the
`Unsupported type` error of the type mapper; being an `Except.error`, it
aborts the conversion of the whole operation. -/
theorem claim6_zero_children_error :
    (∀ (env : SchemaEnv) (cfg : GraphQLSchemaConverterConfig)
      (field : GraphQLField) (params : FunctionDefinitionParameters)
      (context : VisitContext) (tname : String)
      (p1 : FunctionDefinitionParameters) (qp ab : String) (n : Nat)
      (p2 : FunctionDefinitionParameters) (qps qbs : String),
      unwrapType field.type = .object tname →
      context.path.contains tname = false →
      context.path.length + 1 ≤ cfg.maxDepth →
      processArgs env context field.args params 0 = .ok (p1, qp, ab, n) →
      (∀ (pf : context.path.length + 1 ≤ cfg.maxDepth),
        visitChildren env cfg tname (env.objFieldsOf tname) context n p1 pf
          = .ok (p2, qps, qbs, false)) →
      visit env cfg field params context =
        .error (.noFields context.operationName))
    ∧ (∀ s t, ConvError.noFields s ≠ ConvError.unsupportedType t)
    ∧ (∀ s, (ConvError.noFields s).message =
        "Expected at least one field on path: " ++ s) := by
  refine ⟨?_, ?_, ?_⟩
  · intro env cfg field params context tname p1 qp ab n p2 qps qbs hty hcyc
      hdep hargs hkids
    rw [visit.eq_def, hty]
    dsimp only
    rw [if_neg (by rw [hcyc]; simp), dif_neg (Nat.not_lt.mpr hdep), hargs]
    simp only [Bind.bind, Except.bind, hkids]
    rfl
  · intro s t h
    exact ConvError.noConfusion h
  · intro s
    rfl

/-- Witness for C6, the spec's concrete scenario: with `maxDepth = 1` the
root query field returns `Obj1`, whose only field `sub` returns `Obj2` and
is cut by depth exhaustion, so the whole operation conversion aborts with
the structural error. -/
theorem claim6_witness :
    visit ⟨[("Obj1", [⟨"sub", .object "Obj2", [], none⟩]),
            ("Obj2", [⟨"v", .scalar "Int", [], none⟩])], [], [], []⟩
      ⟨fun _ _ => true, 1⟩ ⟨"top", .object "Obj1", [], none⟩
      ⟨"object", [], []⟩ ⟨"query.top", "", 0, []⟩
      = .error (.noFields "query.top") :=
  claim6_zero_children_error.1 _ _ _ _ _ "Obj1" ⟨"object", [], []⟩ "" "" 0
    ⟨"object", [], []⟩ "" "" rfl rfl (by decide) rfl
    (fun pf => by
      simp [visitChildren, visit, VisitContext.nested, combineStrings,
        SchemaEnv.objFieldsOf, unwrapType, processArgs, Bind.bind,
        Except.bind])

/-- C8: the type mapper `convertToArgument` maps a scalar type to its
configured scalar kind (`Int ↦ integer`, `Float ↦ number`,
`String ↦ string`, `Boolean ↦ boolean`, `ID ↦ string`), falling back to
`string` for unmapped scalar names; maps an enum type to the `string` kind
carrying the set of all declared value names; maps a list type to an
`array` descriptor whose `items` is the recursive mapping of the element
type after stripping one non-null wrapper; and throws the
`Unsupported type` error for an input-object type reached directly as a
leaf. -/
theorem claim8_type_mapper :
    (∀ n, convertToArgument (.scalar n) =
      .ok (.mk (scalarTypeMap n) none none none))
    ∧ (scalarTypeMap "Int" = "integer" ∧ scalarTypeMap "Float" = "number" ∧
      scalarTypeMap "String" = "string" ∧ scalarTypeMap "Boolean" = "boolean"
      ∧ scalarTypeMap "ID" = "string")
    ∧ (∀ n, n ∉ ["Int", "Float", "String", "Boolean", "ID"] →
      scalarTypeMap n = "string")
    ∧ (∀ n vals, convertToArgument (.enum n vals) =
      .ok (.mk "string" none (some vals) none))
    ∧ (∀ t out, convertToArgument (convertRequired t).type = .ok out →
      convertToArgument (.list t) = .ok (.mk "array" (some out) none none))
    ∧ (∀ iname, convertToArgument (.inputObject iname) =
      .error (.unsupportedType (.inputObject iname)))
    ∧ (∀ iname, (ConvError.unsupportedType (.inputObject iname)).message =
      "Unsupported type: " ++ iname) := by
  refine ⟨?_, ⟨rfl, rfl, rfl, rfl, rfl⟩, ?_, ?_, ?_, ?_, ?_⟩
  · intro n
    rw [convertToArgument]
  · intro n hn
    simp only [List.mem_cons, List.not_mem_nil, or_false, not_or] at hn
    obtain ⟨h1, h2, h3, h4, h5⟩ := hn
    simp [scalarTypeMap, h1, h2, h3, h4, h5]
  · intro n vals
    rw [convertToArgument]
  · intro t out hout
    rw [convertToArgument, hout]
    rfl
  · intro iname
    rw [convertToArgument]
    all_goals simp
  · intro iname
    rfl

/-- Witness for C8: the fallback and list clauses at concrete inputs — the
scalar `DateTime` is unmapped and falls back to `string`, and a list of
non-null `Int` maps to an `array` of `integer`. -/
theorem claim8_witness :
    scalarTypeMap "DateTime" = "string" ∧
    convertToArgument (.list (.nonNull (.scalar "Int"))) =
      .ok (.mk "array" (some (.mk "integer" none none none)) none none) :=
  ⟨claim8_type_mapper.2.2.1 "DateTime" (by decide),
    claim8_type_mapper.2.2.2.2.1 (.nonNull (.scalar "Int")) _
      (by rw [show (convertRequired (.nonNull (.scalar "Int"))).type =
          GraphQLInputType.scalar "Int" from rfl, convertToArgument]
          rfl)⟩

/-- C10: `executeTools` with a single `ToolCall` whose name matches no tool
in the provided definitions resolves to the empty string (no error is
raised or reported); with an array, every call is resolved independently
through the single-call path, and the result array preserves the input
order (the `i`-th result is the resolution of the `i`-th call). -/
theorem claim10_executeTools :
    (∀ (call : ToolCall) (defs : List APIFunction),
      (∀ t ∈ defs, t.getName ≠ call.name) →
      executeToolsSingle call defs = "")
    ∧ (∀ (calls : List ToolCall) (defs : List APIFunction) (i : Nat),
      (executeToolsMany calls defs)[i]? =
        (calls[i]?).map (fun c => executeToolsSingle c defs))
    ∧ (∀ (calls : List ToolCall) (defs : List APIFunction),
      (executeToolsMany calls defs).length = calls.length) := by
  refine ⟨?_, ?_, ?_⟩
  · intro call defs hnone
    have hfind : toolsMapGet defs call.name = none := by
      apply List.find?_eq_none.mpr
      intro t ht
      simp only [beq_eq_false_iff_ne, ne_eq, beq_iff_eq]
      exact hnone t (List.mem_reverse.mp ht)
    simp [executeToolsSingle, hfind]
  · intro calls defs i
    simp [executeToolsMany]
  · intro calls defs
    simp [executeToolsMany]

/-- The exact fragments produced by `processField`: the body binding is
preceded by `", "` iff the local running count is positive, and the header
fragment is `", "` iff the context baseline plus the local running count is
positive. -/
theorem processField_spec (params : FunctionDefinitionParameters)
    (ctx : VisitContext) (numArgs : Nat) (ut : UnwrappedType)
    (argName origName : String) (d : Option String)
    (params' : FunctionDefinitionParameters) (pd : ProcessedField)
    (h : processField params ctx numArgs ut argName origName d
      = .ok (params', pd)) :
    pd.argName = "$" ++ argName ∧
    pd.queryHeader = (if 0 < ctx.numArgs + numArgs then ", " else "") ∧
    pd.queryBody = (if 0 < numArgs then ", " else "") ++ origName ++ ": " ++
      ("$" ++ argName) := by
  rw [processField] at h
  cases hconv : convertToArgument ut.type with
  | error e =>
    rw [hconv] at h
    cases h
  | ok a =>
    rw [hconv] at h
    simp only [Bind.bind, Except.bind] at h
    injection h with hpair
    injection hpair with hp hpd
    subst hpd
    exact ⟨rfl, rfl, rfl⟩

/-- `commaSep` splits over list append, shifting the baseline. -/
theorem commaSep_append :
    ∀ (l1 : List String) (k : Nat) (l2 : List String),
    commaSep k (l1 ++ l2) = commaSep k l1 ++ commaSep (k + l1.length) l2 := by
  intro l1
  induction l1 with
  | nil =>
    intro k l2
    simp [commaSep]
  | cons s rest ih =>
    intro k l2
    rw [List.cons_append, commaSep, commaSep, ih (k + 1) l2]
    simp [String.append_assoc, Nat.add_assoc, Nat.add_comm 1]

/-- The fragments produced by flattening one input-object's fields: the body
is the `", "`-separated list of `fieldName: $flatName` bindings starting at
the entry count (so fields after the first are always preceded by `", "`,
and so is the first one when the running count is already positive), the
header is the `", "`-separated list of `$flatName: Type` declarations
starting at `ctx.numArgs` plus the entry count, and the running count grows
by the number of fields. -/
theorem processInputFields_text (env : SchemaEnv) (ctx : VisitContext) :
    ∀ (fields : List GraphQLInputField)
      (params : FunctionDefinitionParameters) (numArgs : Nat)
      (p : FunctionDefinitionParameters) (qh qb : String) (n' : Nat),
    processInputFields env ctx fields params numArgs = .ok (p, qh, qb, n') →
    n' = numArgs + fields.length
    ∧ qb = commaSep numArgs
        (fields.map (fun f => f.name ++ ": " ++ ("$" ++
          combineStrings ctx.pfx f.name)))
    ∧ qh = commaSep (ctx.numArgs + numArgs)
        (fields.map (fun f => "$" ++ combineStrings ctx.pfx f.name ++ ": " ++
          typeSignature f.type)) := by
  intro fields
  induction fields with
  | nil =>
    intro params numArgs p qh qb n' h
    rw [processInputFields] at h
    cases h
    exact ⟨rfl, rfl, rfl⟩
  | cons fld rest ih =>
    intro params numArgs p qh qb n' h
    rw [processInputFields] at h
    cases hpf : processField params ctx numArgs (convertRequired fld.type)
        (combineStrings ctx.pfx fld.name) fld.name
        fld.resolvedDescription with
    | error e =>
      rw [hpf] at h
      cases h
    | ok pr =>
      obtain ⟨params1, pd⟩ := pr
      rw [hpf] at h
      simp only [Bind.bind, Except.bind] at h
      cases hrec : processInputFields env ctx rest params1 (numArgs + 1) with
      | error e =>
        rw [hrec] at h
        cases h
      | ok out =>
        obtain ⟨params2, qh2, qb2, n2⟩ := out
        rw [hrec] at h
        cases h
        obtain ⟨hn, hqb, hqh⟩ := ih params1 (numArgs + 1) params2 qh2 qb2 n2
          hrec
        obtain ⟨hpan, hph, hpb⟩ := processField_spec _ _ _ _ _ _ _ _ _ hpf
        refine ⟨?_, ?_, ?_⟩
        · simp only [hn, List.length_cons]
          omega
        · rw [List.map_cons, commaSep, hpb, hqb]
          simp [String.append_assoc]
        · rw [List.map_cons, commaSep, hph, hqh, hpan]
          simp [String.append_assoc, Nat.add_assoc]

/-- The header fragment produced by processing one field's argument list:
it is the `", "`-separated list of all flat variable declarations (one per
direct argument, one per input-object field), with a declaration preceded by
`", "` exactly when `ctx.numArgs` plus the local running count at that point
is positive; the running count grows by the number of declarations. -/
theorem processArgs_header (env : SchemaEnv) (ctx : VisitContext) :
    ∀ (args : List GraphQLArgument)
      (params : FunctionDefinitionParameters) (numArgs : Nat)
      (p : FunctionDefinitionParameters) (qh qb : String) (n' : Nat),
    processArgs env ctx args params numArgs = .ok (p, qh, qb, n') →
    n' = numArgs + (argDecls env ctx args).length
    ∧ qh = commaSep (ctx.numArgs + numArgs) (argDecls env ctx args) := by
  intro args
  induction args with
  | nil =>
    intro params numArgs p qh qb n' h
    rw [processArgs] at h
    cases h
    exact ⟨rfl, rfl⟩
  | cons arg rest ih =>
    intro params numArgs p qh qb n' h
    rw [processArgs] at h
    rw [argDecls]
    cases hu : (convertRequired arg.type).type
    case inputObject iname =>
      rw [hu] at h
      simp only [Bind.bind, Except.bind] at h
      cases hin : processInputFields env ctx (env.inputFieldsOf iname) params
          numArgs with
      | error e =>
        rw [hin] at h
        cases h
      | ok out1 =>
        obtain ⟨params1, qh1, qb1, n1⟩ := out1
        rw [hin] at h
        simp only [Except.bind] at h
        cases hrest : processArgs env ctx rest params1 n1 with
        | error e =>
          rw [hrest] at h
          cases h
        | ok out2 =>
          obtain ⟨params2, qh2, qb2, n2⟩ := out2
          rw [hrest] at h
          cases h
          obtain ⟨hn1, -, hqh1⟩ :=
            processInputFields_text env ctx _ _ _ _ _ _ _ hin
          obtain ⟨hn2, hqh2⟩ := ih params1 n1 params2 qh2 qb2 n2 hrest
          subst hn1
          refine ⟨?_, ?_⟩
          · simp only [hn2, List.length_append, List.length_map]
            omega
          · rw [hqh1, hqh2, commaSep_append]
            simp [Nat.add_assoc]
    all_goals (
      rw [hu] at h
      simp only [Bind.bind, Except.bind] at h
      cases hpf : processField params ctx numArgs (convertRequired arg.type)
          (combineStrings ctx.pfx arg.name) arg.name
          arg.resolvedDescription with
      | error e =>
        rw [hpf] at h
        cases h
      | ok pr =>
        obtain ⟨params1, pd⟩ := pr
        rw [hpf] at h
        simp only [Except.bind] at h
        cases hrest : processArgs env ctx rest params1 (numArgs + 1) with
        | error e =>
          rw [hrest] at h
          cases h
        | ok out2 =>
          obtain ⟨params2, qh2, qb2, n2⟩ := out2
          rw [hrest] at h
          cases h
          obtain ⟨hpan, hph, -⟩ := processField_spec _ _ _ _ _ _ _ _ _ hpf
          obtain ⟨hn2, hqh2⟩ := ih params1 (numArgs + 1) params2 qh2 qb2 n2
            hrest
          refine ⟨?_, ?_⟩
          · simp only [hn2, List.singleton_append, List.length_cons]
            omega
          · rw [hqh2, hph, hpan, List.singleton_append, commaSep]
            simp [String.append_assoc, Nat.add_assoc])

/-- C3 (amended): within one flattened input-object's body, a field binding
is preceded by `", "` iff the local running count at that point is positive
— so fields after the first are always preceded by `", "` (and the first one
too when the input object is not the field's first argument); in the outer
variable-declaration list an argument is preceded by `", "` exactly when
`context.numArgs` plus the local running count is positive, which yields
valid `", "`-separation for the declarations of a single field's own
argument list relative to its baseline.  (The original claim's guarantee of
valid comma placement across sibling fields that each declare arguments is
false on the code — see the counterexample — because each sibling's baseline
omits the other siblings' arguments.) -/
theorem claim3_comma_rules :
    (∀ (params : FunctionDefinitionParameters) (ctx : VisitContext)
      (numArgs : Nat) (ut : UnwrappedType) (argName origName : String)
      (d : Option String) (params' : FunctionDefinitionParameters)
      (pd : ProcessedField),
      processField params ctx numArgs ut argName origName d
        = .ok (params', pd) →
      pd.queryHeader = (if 0 < ctx.numArgs + numArgs then ", " else "") ∧
      pd.queryBody = (if 0 < numArgs then ", " else "") ++ origName ++ ": " ++
        ("$" ++ argName))
    ∧ (∀ (env : SchemaEnv) (ctx : VisitContext)
      (fields : List GraphQLInputField)
      (params : FunctionDefinitionParameters) (numArgs : Nat)
      (p : FunctionDefinitionParameters) (qh qb : String) (n' : Nat),
      processInputFields env ctx fields params numArgs = .ok (p, qh, qb, n')
      → qb = commaSep numArgs
        (fields.map (fun f => f.name ++ ": " ++ ("$" ++
          combineStrings ctx.pfx f.name))))
    ∧ (∀ (env : SchemaEnv) (ctx : VisitContext)
      (args : List GraphQLArgument)
      (params : FunctionDefinitionParameters) (numArgs : Nat)
      (p : FunctionDefinitionParameters) (qh qb : String) (n' : Nat),
      processArgs env ctx args params numArgs = .ok (p, qh, qb, n') →
      qh = commaSep (ctx.numArgs + numArgs) (argDecls env ctx args)) := by
  refine ⟨?_, ?_, ?_⟩
  · intro params ctx numArgs ut argName origName d params' pd h
    obtain ⟨-, hh, hb⟩ := processField_spec _ _ _ _ _ _ _ _ _ h
    exact ⟨hh, hb⟩
  · intro env ctx fields params numArgs p qh qb n' h
    exact (processInputFields_text env ctx fields params numArgs p qh qb n'
      h).2.1
  · intro env ctx args params numArgs p qh qb n' h
    exact (processArgs_header env ctx args params numArgs p qh qb n' h).2

/-- Counterexample for C3 as stated: in `envSiblingArgs`, the sibling fields
`a` and `b` of the expanded object each declare one argument, yet the
resulting `queryParams` is `$a_x: Int$b_y: Int` — two variable declarations
with no `", "` separator (no comma occurs in the fragment at all), which is
not syntactically valid comma placement; and in `envNestedInput`, the
input-object argument `obj` is not the field's first argument, and the
resulting `queryBody` both misses the `", "` before `obj` and carries a
leading `", "` inside the braces. -/
theorem claim3_counterexample :
    (visit envSiblingArgs .DEFAULT ⟨"top", .object "Obj", [], none⟩
      ⟨"object", [], []⟩ ⟨"query.top", "", 0, []⟩
      = .ok (⟨"object",
          [("a_x", .mk "integer" none none none),
            ("b_y", .mk "integer" none none none)], []⟩,
        ⟨true, "$a_x: Int$b_y: Int",
          "top \x7b\na(x: $a_x)\nb(y: $b_y)\n\x7d\n"⟩))
    ∧ ("$a_x: Int$b_y: Int".data.filter (fun c => c = '$')).length = 2
    ∧ ("$a_x: Int$b_y: Int".data.contains ',') = false
    ∧ (visit envNestedInput .DEFAULT
      ⟨"m", .scalar "Int", [⟨"first", .scalar "Int", none⟩,
        ⟨"obj", .inputObject "Inp", none⟩], none⟩
      ⟨"object", [], []⟩ ⟨"query.m", "", 0, []⟩
      = .ok (⟨"object",
          [("first", .mk "integer" none none none),
            ("f1", .mk "integer" none none none),
            ("f2", .mk "string" none none none)], ["f1"]⟩,
        ⟨true, "$first: Int, $f1: Int!, $f2: String",
          "m(first: $firstobj: \x7b , f1: $f1, f2: $f2 \x7d)\n"⟩)) := by
  refine ⟨?_, by decide, by decide, ?_⟩
  · simp [visit, visitChildren, processArgs, processInputFields, processField,
      convertToArgument, convertRequired, unwrapType, envSiblingArgs,
      SchemaEnv.objFieldsOf, SchemaEnv.inputFieldsOf, VisitContext.nested,
      combineStrings, scalarTypeMap, typeSignature, insertProp,
      FunctionDefinitionArgument.setDescription,
      GraphQLSchemaConverterConfig.DEFAULT, Bind.bind, Except.bind]
  · simp [visit, visitChildren, processArgs, processInputFields, processField,
      convertToArgument, convertRequired, unwrapType, envNestedInput,
      SchemaEnv.objFieldsOf, SchemaEnv.inputFieldsOf, VisitContext.nested,
      combineStrings, scalarTypeMap, typeSignature, insertProp,
      FunctionDefinitionArgument.setDescription,
      GraphQLSchemaConverterConfig.DEFAULT, Bind.bind, Except.bind]

/-- Witness for C3 (amended) at the `envNestedInput` argument list: the
outer declaration list produced for the field's own arguments is the
correctly `", "`-separated list of the three flat declarations. -/
theorem claim3_witness :
    "$first: Int, $f1: Int!, $f2: String" =
      commaSep (0 + 0) (argDecls envNestedInput ⟨"query.m", "", 0, []⟩
        [⟨"first", .scalar "Int", none⟩, ⟨"obj", .inputObject "Inp", none⟩]) :=
  claim3_comma_rules.2.2 envNestedInput ⟨"query.m", "", 0, []⟩
    [⟨"first", .scalar "Int", none⟩, ⟨"obj", .inputObject "Inp", none⟩]
    ⟨"object", [], []⟩ 0
    ⟨"object",
      [("first", .mk "integer" none none none),
        ("f1", .mk "integer" none none none),
        ("f2", .mk "string" none none none)], ["f1"]⟩
    "$first: Int, $f1: Int!, $f2: String"
    "first: $firstobj: \x7b , f1: $f1, f2: $f2 \x7d" 3
    (by simp [processArgs, processInputFields, processField,
      convertToArgument, convertRequired, envNestedInput,
      SchemaEnv.inputFieldsOf, combineStrings, scalarTypeMap, typeSignature,
      insertProp, FunctionDefinitionArgument.setDescription, Bind.bind,
      Except.bind])

/-- `insertProp` keeps every existing key and makes `k` a key. -/
theorem keys_insertProp (props : List (String × FunctionDefinitionArgument))
    (k : String) (v : FunctionDefinitionArgument) :
    ∀ r, (r ∈ props.map Prod.fst ∨ r = k) →
      r ∈ (insertProp props k v).map Prod.fst := by
  intro r hr
  rw [insertProp]
  by_cases hany : props.any (fun kv => kv.fst == k) = true
  · rw [if_pos hany]
    have hkeys :
        (props.map (fun kv => if kv.fst == k then (kv.fst, v) else kv)).map
          Prod.fst = props.map Prod.fst := by
      rw [List.map_map]
      apply List.map_congr_left
      intro kv _
      show (if kv.fst == k then (kv.fst, v) else kv).fst = kv.fst
      split <;> rfl
    rw [hkeys]
    rcases hr with h | rfl
    · exact h
    · obtain ⟨kv, hkv, hbeq⟩ := List.any_eq_true.mp hany
      have : kv.fst = r := by simpa using hbeq
      exact this ▸ List.mem_map.mpr ⟨kv, hkv, rfl⟩
  · rw [if_neg hany]
    rcases hr with h | rfl
    · simp only [List.map_append, List.mem_append]
      exact Or.inl h
    · simp

/-- `processField` preserves the Parameter Schema invariant (and establishes
it for the name just processed). -/
theorem processField_inv (params : FunctionDefinitionParameters)
    (ctx : VisitContext) (numArgs : Nat) (ut : UnwrappedType)
    (argName origName : String) (d : Option String)
    (params' : FunctionDefinitionParameters) (pd : ProcessedField)
    (hinv : reqSubsetProps params)
    (h : processField params ctx numArgs ut argName origName d
      = .ok (params', pd)) :
    reqSubsetProps params' := by
  rw [processField] at h
  cases hconv : convertToArgument ut.type with
  | error e =>
    rw [hconv] at h
    cases h
  | ok a =>
    rw [hconv] at h
    simp only [Bind.bind, Except.bind] at h
    injection h with hpair
    injection hpair with hp hpd
    subst hp
    intro r hr
    simp only at hr ⊢
    apply keys_insertProp
    by_cases hreq : ut.required
    · rw [if_pos hreq] at hr
      rcases List.mem_append.mp hr with h1 | h1
      · exact Or.inl (hinv r h1)
      · exact Or.inr (List.mem_singleton.mp h1)
    · rw [if_neg hreq] at hr
      exact Or.inl (hinv r hr)

/-- `processInputFields` preserves the Parameter Schema invariant. -/
theorem processInputFields_inv (env : SchemaEnv) (ctx : VisitContext) :
    ∀ (fields : List GraphQLInputField)
      (params : FunctionDefinitionParameters) (numArgs : Nat)
      (out : FunctionDefinitionParameters × String × String × Nat),
    reqSubsetProps params →
    processInputFields env ctx fields params numArgs = .ok out →
    reqSubsetProps out.1 := by
  intro fields
  induction fields with
  | nil =>
    intro params numArgs out hinv h
    rw [processInputFields] at h
    cases h
    exact hinv
  | cons fld rest ih =>
    intro params numArgs out hinv h
    rw [processInputFields] at h
    cases hpf : processField params ctx numArgs (convertRequired fld.type)
        (combineStrings ctx.pfx fld.name) fld.name
        fld.resolvedDescription with
    | error e =>
      rw [hpf] at h
      cases h
    | ok pr =>
      obtain ⟨params1, pd⟩ := pr
      rw [hpf] at h
      simp only [Bind.bind, Except.bind] at h
      cases hrec : processInputFields env ctx rest params1 (numArgs + 1) with
      | error e =>
        rw [hrec] at h
        cases h
      | ok out2 =>
        rw [hrec] at h
        cases h
        have hinv1 := processField_inv _ _ _ _ _ _ _ _ _ hinv hpf
        exact ih params1 (numArgs + 1) out2 hinv1 hrec

/-- `processArgs` preserves the Parameter Schema invariant. -/
theorem processArgs_inv (env : SchemaEnv) (ctx : VisitContext) :
    ∀ (args : List GraphQLArgument)
      (params : FunctionDefinitionParameters) (numArgs : Nat)
      (out : FunctionDefinitionParameters × String × String × Nat),
    reqSubsetProps params →
    processArgs env ctx args params numArgs = .ok out →
    reqSubsetProps out.1 := by
  intro args
  induction args with
  | nil =>
    intro params numArgs out hinv h
    rw [processArgs] at h
    cases h
    exact hinv
  | cons arg rest ih =>
    intro params numArgs out hinv h
    rw [processArgs] at h
    cases hu : (convertRequired arg.type).type
    case inputObject iname =>
      rw [hu] at h
      simp only [Bind.bind, Except.bind] at h
      cases hin : processInputFields env ctx (env.inputFieldsOf iname) params
          numArgs with
      | error e =>
        rw [hin] at h
        cases h
      | ok out1 =>
        obtain ⟨params1, qh1, qb1, n1⟩ := out1
        rw [hin] at h
        simp only [Except.bind] at h
        cases hrest : processArgs env ctx rest params1 n1 with
        | error e =>
          rw [hrest] at h
          cases h
        | ok out2 =>
          rw [hrest] at h
          cases h
          have hinv1 := processInputFields_inv env ctx _ _ _ _ hinv hin
          exact ih params1 n1 out2 hinv1 hrest
    all_goals (
      rw [hu] at h
      simp only [Bind.bind, Except.bind] at h
      cases hpf : processField params ctx numArgs (convertRequired arg.type)
          (combineStrings ctx.pfx arg.name) arg.name
          arg.resolvedDescription with
      | error e =>
        rw [hpf] at h
        cases h
      | ok pr =>
        obtain ⟨params1, pd⟩ := pr
        rw [hpf] at h
        simp only [Except.bind] at h
        cases hrest : processArgs env ctx rest params1 (numArgs + 1) with
        | error e =>
          rw [hrest] at h
          cases h
        | ok out2 =>
          rw [hrest] at h
          cases h
          have hinv1 := processField_inv _ _ _ _ _ _ _ _ _ hinv hpf
          exact ih params1 (numArgs + 1) out2 hinv1 hrest)

/-- `visit` preserves the Parameter Schema invariant: if every `required`
name of the incoming Parameter Schema is one of its property keys, the same
holds for the Parameter Schema after the traversal of the field. -/
theorem visit_inv (env : SchemaEnv) (cfg : GraphQLSchemaConverterConfig) :
    ∀ (field : GraphQLField) (params : FunctionDefinitionParameters)
      (context : VisitContext),
      ∀ (out : FunctionDefinitionParameters × VisitResult),
      reqSubsetProps params →
      visit env cfg field params context = .ok out →
      reqSubsetProps out.1 := by
  refine visit.induct env cfg
    (fun field params context => ∀ out, reqSubsetProps params →
      visit env cfg field params context = .ok out → reqSubsetProps out.1)
    (fun objName fields context numArgs params h => ∀ out,
      reqSubsetProps params →
      visitChildren env cfg objName fields context numArgs params h = .ok out
      → reqSubsetProps out.1)
    ?_ ?_ ?_ ?_ ?_ ?_
  · intro field params context tname hty hcyc out hinv heq
    rw [visit.eq_def, hty] at heq
    dsimp only at heq
    rw [if_pos hcyc] at heq
    cases heq
    exact hinv
  · intro field params context tname hty hcyc hlt out hinv heq
    rw [visit.eq_def, hty] at heq
    dsimp only at heq
    rw [if_neg hcyc, dif_pos hlt] at heq
    cases heq
    exact hinv
  · intro field params context tname hty hcyc hdep IH out hinv heq
    rw [visit.eq_def, hty] at heq
    dsimp only at heq
    rw [if_neg hcyc, dif_neg hdep] at heq
    cases hargs : processArgs env context field.args params 0 with
    | error e =>
      rw [hargs] at heq
      cases heq
    | ok out1 =>
      obtain ⟨p1, qp, ab, n⟩ := out1
      rw [hargs] at heq
      simp only [Bind.bind, Except.bind] at heq
      have hinv1 := processArgs_inv env context _ _ _ _ hinv hargs
      cases hkids : visitChildren env cfg tname (env.objFieldsOf tname)
          context n p1 (Nat.le_of_not_lt hdep) with
      | error e =>
        rw [hkids] at heq
        cases heq
      | ok out2 =>
        obtain ⟨p2, qps, qbs, b⟩ := out2
        rw [hkids] at heq
        have hinv2 := IH p1 n (p2, qps, qbs, b) hinv1 hkids
        cases b
        · cases heq
        · cases heq
          exact hinv2
  · intro field params context hnotobj out hinv heq
    rw [visit.eq_def] at heq
    cases hut : unwrapType field.type
    case object tname => exact (hnotobj tname hut).elim
    all_goals (
      rw [hut] at heq
      dsimp only at heq
      cases hargs : processArgs env context field.args params 0 with
      | error e =>
        rw [hargs] at heq
        cases heq
      | ok out1 =>
        obtain ⟨p1, qp, ab, n⟩ := out1
        rw [hargs] at heq
        simp only [Bind.bind, Except.bind] at heq
        cases heq
        exact processArgs_inv env context _ _ _ _ hinv hargs)
  · intro objName context numArgs params h out hinv heq
    rw [visitChildren] at heq
    cases heq
    exact hinv
  · intro objName context numArgs params h nestedField rest IH1 IH2 out hinv
      heq
    rw [visitChildren] at heq
    cases hv : visit env cfg nestedField params
        (context.nested nestedField.name objName numArgs) with
    | error e =>
      rw [hv] at heq
      cases heq
    | ok pr =>
      obtain ⟨params1, res⟩ := pr
      rw [hv] at heq
      simp only [Bind.bind, Except.bind] at heq
      have hinv1 := IH1 (params1, res) hinv hv
      cases hrec : visitChildren env cfg objName rest context numArgs params1
          h with
      | error e =>
        rw [hrec] at heq
        cases heq
      | ok out2 =>
        rw [hrec] at heq
        cases heq
        exact IH2 params1 out2 hinv1 hrec

/-- One step of the operation parser's variable loop preserves the
Parameter Schema invariant. -/
theorem convertVariableDefinition_inv (ps : FunctionDefinitionParameters)
    (varDef : VariableDefinitionNode) (ps' : FunctionDefinitionParameters)
    (hinv : reqSubsetProps ps)
    (h : convertVariableDefinition ps varDef = .ok ps') :
    reqSubsetProps ps' := by
  rw [convertVariableDefinition] at h
  dsimp only at h
  cases hconv : convertType (match varDef.type with
      | TypeNode.nonNullType t => t
      | t => t) with
  | error e =>
    rw [hconv] at h
    cases h
  | ok a =>
    rw [hconv] at h
    simp only [Bind.bind, Except.bind] at h
    injection h with hps
    subst hps
    intro r hr
    dsimp only at hr ⊢
    apply keys_insertProp
    by_cases hreq : (match varDef.type with
        | TypeNode.nonNullType _ => true
        | _ => false) = true
    · rw [if_pos hreq] at hr
      rcases List.mem_append.mp hr with h1 | h1
      · exact Or.inl (hinv r h1)
      · exact Or.inr (List.mem_singleton.mp h1)
    · rw [if_neg hreq] at hr
      exact Or.inl (hinv r hr)

/-- The whole variable loop of the operation parser preserves the Parameter
Schema invariant. -/
theorem foldlM_convertVar_inv :
    ∀ (l : List VariableDefinitionNode)
      (ps ps' : FunctionDefinitionParameters),
    reqSubsetProps ps →
    l.foldlM convertVariableDefinition ps = .ok ps' →
    reqSubsetProps ps' := by
  intro l
  induction l with
  | nil =>
    intro ps ps' hinv h
    rw [List.foldlM] at h
    cases h
    exact hinv
  | cons varDef rest ih =>
    intro ps ps' hinv h
    rw [List.foldlM] at h
    cases hstep : convertVariableDefinition ps varDef with
    | error e =>
      rw [hstep] at h
      cases h
    | ok ps1 =>
      rw [hstep] at h
      simp only [Bind.bind, Except.bind] at h
      exact ih ps1 ps' (convertVariableDefinition_inv ps varDef ps1 hinv
        hstep) h

/-- C1: the Parameter Schema invariant — every name in `required` is a key
of `properties` — holds at every point: `processField` preserves it for
every processed argument, `visit` preserves it across a whole traversal,
every Tool Definition returned by `convertToApiFunction` satisfies it
(starting from the empty schema), and so does every definition built by the
operation parser's `convertOperationDefinition`. -/
theorem claim1_required_subset_properties :
    (∀ (params : FunctionDefinitionParameters) (ctx : VisitContext)
      (numArgs : Nat) (ut : UnwrappedType) (argName origName : String)
      (d : Option String) (params' : FunctionDefinitionParameters)
      (pd : ProcessedField),
      reqSubsetProps params →
      processField params ctx numArgs ut argName origName d
        = .ok (params', pd) →
      reqSubsetProps params')
    ∧ (∀ (env : SchemaEnv) (cfg : GraphQLSchemaConverterConfig)
      (field : GraphQLField) (params : FunctionDefinitionParameters)
      (context : VisitContext)
      (out : FunctionDefinitionParameters × VisitResult),
      reqSubsetProps params →
      visit env cfg field params context = .ok out → reqSubsetProps out.1)
    ∧ (∀ (env : SchemaEnv) (cfg : GraphQLSchemaConverterConfig)
      (ex : APIQueryExecutor) (ks : List String) (opT : String)
      (field : GraphQLField) (fn : APIFunction),
      convertToApiFunction env cfg ex ks opT field = .ok fn →
      reqSubsetProps fn.function.parameters)
    ∧ (∀ (node : OperationDefinitionNode) (fd : FunctionDefinition),
      convertOperationDefinition node = .ok fd →
      reqSubsetProps fd.parameters) := by
  refine ⟨processField_inv, visit_inv, ?_, ?_⟩
  · intro env cfg ex ks opT field fn h
    rw [convertToApiFunction] at h
    simp only [initializeFunctionDefinition] at h
    cases hv : visit env cfg field ⟨"object", [], []⟩
        ⟨toLowerCase opT ++ "." ++ field.name, "", 0, []⟩ with
    | error e =>
      rw [hv] at h
      cases h
    | ok pr =>
      obtain ⟨params', res⟩ := pr
      rw [hv] at h
      simp only [Bind.bind, Except.bind] at h
      rw [APIFunction.create] at h
      dsimp only at h
      split at h
      · cases h
        exact visit_inv env cfg field ⟨"object", [], []⟩ _ (params', res)
          (fun r hr => absurd hr (List.not_mem_nil r)) hv
      · cases h
  · intro node fd h
    rw [convertOperationDefinition] at h
    by_cases hsub : node.operation = .subscription
    · rw [if_pos hsub] at h
      cases h
    · rw [if_neg hsub] at h
      cases hfold : node.variableDefinitions.foldlM convertVariableDefinition
          ⟨"object", [], []⟩ with
      | error e =>
        rw [hfold] at h
        cases h
      | ok params =>
        rw [hfold] at h
        simp only [Bind.bind, Except.bind] at h
        cases h
        exact foldlM_convertVar_inv _ _ _
          (fun r hr => absurd hr (List.not_mem_nil r)) hfold

/-- Witness for C1, instantiating all four conjuncts at concrete inputs: a
required scalar argument processed by `processField`, a cycle-guarded
`visit` call, a complete `convertToApiFunction` run on a one-argument query
field, and a parsed operation with one non-null variable. -/
theorem claim1_witness :
    reqSubsetProps ⟨"object", [("x", .mk "integer" none none none)], ["x"]⟩
    ∧ reqSubsetProps ⟨"object", [("seen", .mk "string" none none none)],
        ["seen"]⟩
    ∧ reqSubsetProps (FunctionDefinition.mk "q" none
        ⟨"object", [("id", .mk "string" none none none)], ["id"]⟩).parameters
    ∧ reqSubsetProps (FunctionDefinition.mk "HighTemps" none
        ⟨"object", [("zip", .mk "integer" none none none)],
          ["zip"]⟩).parameters := by
  refine ⟨?_, ?_, ?_, ?_⟩
  · exact claim1_required_subset_properties.1 ⟨"object", [], []⟩
      ⟨"query.q", "", 0, []⟩ 0 ⟨.scalar "Int", true⟩ "x" "x" none
      ⟨"object", [("x", .mk "integer" none none none)], ["x"]⟩
      ⟨"$x", "", "x: $x"⟩ (fun r hr => absurd hr (List.not_mem_nil r))
      (by simp [processField, convertToArgument, scalarTypeMap, insertProp,
        FunctionDefinitionArgument.setDescription, Bind.bind, Except.bind])
  · exact claim1_required_subset_properties.2.1
      ⟨[("A", [⟨"self", .object "A", [], none⟩])], [], [], []⟩ .DEFAULT
      ⟨"self", .object "A", [], none⟩
      ⟨"object", [("seen", .mk "string" none none none)], ["seen"]⟩
      ⟨"query.top.self", "", 0, ["A"]⟩
      (⟨"object", [("seen", .mk "string" none none none)], ["seen"]⟩,
        ⟨false, "", ""⟩)
      (by intro r hr; simpa using hr)
      (claim2_cycle_depth_guard.1 _ _ _ _ _ "A" rfl (Or.inl (by decide)))
  · exact claim1_required_subset_properties.2.2.1 ⟨[], [], [], []⟩ .DEFAULT
      acceptAllExec [] "query"
      ⟨"q", .scalar "Int", [⟨"id", .nonNull (.scalar "ID"), none⟩], none⟩
      ⟨⟨"q", none, ⟨"object", [("id", .mk "string" none none none)],
        ["id"]⟩⟩, [], "query q($id: ID!) \x7b\nq(id: $id)\n\n\x7d",
        acceptAllExec⟩
      (by simp [convertToApiFunction, initializeFunctionDefinition, visit,
        processArgs, processInputFields, processField, convertToArgument,
        convertRequired, unwrapType, combineStrings, scalarTypeMap,
        typeSignature, insertProp, FunctionDefinitionArgument.setDescription,
        APIFunction.create, acceptAllExec,
        GraphQLSchemaConverterConfig.DEFAULT, Bind.bind, Except.bind,
        show toLowerCase "query" = "query" from by decide])
  · exact claim1_required_subset_properties.2.2.2
      ⟨.query, some "HighTemps",
        [⟨"zip", .nonNullType (.named "Int"), none⟩], none⟩
      ⟨"HighTemps", none, ⟨"object",
        [("zip", .mk "integer" none none none)], ["zip"]⟩⟩
      (by rfl)

/-- The field filter accepts a name iff it matches no context key
case-insensitively. -/
theorem getFieldFilter_eq_true_iff (keys : List String) (field : String) :
    getFieldFilter keys field = true ↔
      ∀ k ∈ keys, toLowerCase field ≠ toLowerCase k := by
  constructor
  · intro hf k hk heq
    have hc : toLowerCase field ∉ keys.map toLowerCase := by
      simpa [getFieldFilter] using hf
    exact hc (List.mem_map.mpr ⟨k, hk, heq.symm⟩)
  · intro hall
    have hnm : toLowerCase field ∉ keys.map toLowerCase := by
      intro hmem
      obtain ⟨k, hk, he⟩ := List.mem_map.mp hmem
      exact hall k hk he.symm
    simp [getFieldFilter, hnm]

/-- Case-insensitive lookup only depends on the lowercased key. -/
theorem mapGetCI_congr (m : List (String × JValue)) {k k' : String}
    (h : toLowerCase k' = toLowerCase k) : mapGetCI m k' = mapGetCI m k := by
  simp only [mapGetCI, h]

/-- Unfolding lemma for `mapGetCI` on a cons cell. -/
theorem mapGetCI_cons (kv : String × JValue) (m : List (String × JValue))
    (k : String) :
    mapGetCI (kv :: m) k =
      if toLowerCase kv.fst = toLowerCase k then some kv.snd
      else mapGetCI m k := by
  by_cases h : toLowerCase kv.fst = toLowerCase k
  · rw [if_pos h]
    simp [mapGetCI, List.find?_cons_of_pos, h]
  · rw [if_neg h]
    have hb : (toLowerCase kv.fst == toLowerCase k) = false := by simpa using h
    simp [mapGetCI, List.find?_cons_of_neg, hb]

/-- Filtering out the entries that match a different key (case-insensitively)
does not change a case-insensitive lookup. -/
theorem mapGetCI_filter_ne (m : List (String × JValue)) (k k' : String)
    (h : toLowerCase k' ≠ toLowerCase k) :
    mapGetCI (m.filter (fun kv => toLowerCase kv.fst != toLowerCase k')) k =
      mapGetCI m k := by
  induction m with
  | nil => rfl
  | cons kv rest ih =>
    rw [List.filter_cons]
    by_cases hk : toLowerCase kv.fst = toLowerCase k
    · have hkeep : (toLowerCase kv.fst != toLowerCase k') = true := by
        simp only [bne_iff_ne, ne_eq]
        rw [hk]
        exact fun e => h e.symm
      rw [if_pos hkeep, mapGetCI_cons, mapGetCI_cons, if_pos hk, if_pos hk]
    · by_cases hk' : toLowerCase kv.fst = toLowerCase k'
      · rw [if_neg (by simp [hk']), mapGetCI_cons, if_neg hk, ih]
      · rw [if_pos (by simp [hk']), mapGetCI_cons, mapGetCI_cons, if_neg hk,
          if_neg hk, ih]

/-- The context-key merge: a value the context map supplies for a context
key ends up in the merged variable map, whatever the caller passed. -/
theorem mapGetCI_addOrOverride (args context : List (String × JValue))
    (keys : List String) (k : String) (v : JValue)
    (hk : k ∈ keys) (hv : mapGetCI context k = some v) :
    mapGetCI (addOrOverrideFromContext args keys context) k = some v := by
  induction keys with
  | nil => cases hk
  | cons k' rest ih =>
    rw [addOrOverrideFromContext]
    rcases List.mem_cons.mp hk with rfl | hmem
    · rw [hv, mapGetCI_cons, if_pos rfl]
    · cases hcv : mapGetCI context k' with
      | none => exact ih hmem
      | some v' =>
        by_cases hlow : toLowerCase k' = toLowerCase k
        · have hsame : some v' = some v := by
            rw [← hcv, mapGetCI_congr context hlow, hv]
          rw [mapGetCI_cons, if_pos hlow]
          exact hsame
        · rw [mapGetCI_cons, if_neg hlow, mapGetCI_filter_ne _ _ _ hlow]
          exact ih hmem

/-- C4: for every Tool built with context keys `K`, the model-facing
definition returned by `getModelFunction` contains no property key and no
`required` entry matching any key of `K` case-insensitively; every
non-matching property and `required` entry is kept unchanged and in order
(the filtered lists are sublists, and membership of non-matching entries is
preserved both ways); and `execute` hands the executor the caller's
arguments merged with the runtime context values for `K`
(`addOrOverrideFromContext`), so a context key's value reaches the executor
even when the caller's arguments omit it. -/
theorem claim4_context_scoping :
    ∀ (f : APIFunction),
    (∀ kv ∈ f.getModelFunction.parameters.properties,
      ∀ k ∈ f.contextKeys, toLowerCase kv.fst ≠ toLowerCase k)
    ∧ (∀ r ∈ f.getModelFunction.parameters.required,
      ∀ k ∈ f.contextKeys, toLowerCase r ≠ toLowerCase k)
    ∧ (∀ kv, (∀ k ∈ f.contextKeys, toLowerCase kv.fst ≠ toLowerCase k) →
      (kv ∈ f.getModelFunction.parameters.properties ↔
        kv ∈ f.function.parameters.properties))
    ∧ (∀ r, (∀ k ∈ f.contextKeys, toLowerCase r ≠ toLowerCase k) →
      (r ∈ f.getModelFunction.parameters.required ↔
        r ∈ f.function.parameters.required))
    ∧ f.getModelFunction.parameters.properties.Sublist
        f.function.parameters.properties
    ∧ f.getModelFunction.parameters.required.Sublist
        f.function.parameters.required
    ∧ f.getModelFunction.name = f.function.name
    ∧ (∀ args context, f.execute args context =
      f.apiExecutor.executeQuery f.apiQuery
        (addOrOverrideFromContext args f.contextKeys context))
    ∧ (∀ args context k v, k ∈ f.contextKeys →
      mapGetCI context k = some v →
      mapGetCI (addOrOverrideFromContext args f.contextKeys context) k
        = some v) := by
  intro f
  refine ⟨?_, ?_, ?_, ?_, ?_, ?_, rfl, fun _ _ => rfl, ?_⟩
  · intro kv hkv
    have := (List.mem_filter.mp hkv).2
    exact (getFieldFilter_eq_true_iff _ _).mp this
  · intro r hr
    have := (List.mem_filter.mp hr).2
    exact (getFieldFilter_eq_true_iff _ _).mp this
  · intro kv hkv
    constructor
    · exact fun h => (List.mem_filter.mp h).1
    · intro h
      exact List.mem_filter.mpr ⟨h, (getFieldFilter_eq_true_iff _ _).mpr hkv⟩
  · intro r hr
    constructor
    · exact fun h => (List.mem_filter.mp h).1
    · intro h
      exact List.mem_filter.mpr ⟨h, (getFieldFilter_eq_true_iff _ _).mpr hr⟩
  · exact List.filter_sublist _
  · exact List.filter_sublist _
  · intro args context k v hk hv
    exact mapGetCI_addOrOverride args context f.contextKeys k v hk hv

/-- Witness for C4 at the spec's `orders` scenario: the full schema has the
property and required entry `customerid`, the Tool's context key is
`customerId` (note the different case), the model-facing schema keeps the
non-matching `limit` property, and `execute`'s merge recovers the context
value although the caller's arguments are empty. -/
theorem claim4_witness :
    (("limit", FunctionDefinitionArgument.mk "integer" none none none) ∈
      (APIFunction.mk
        ⟨"orders", none, ⟨"object",
          [("customerid", .mk "string" none none none),
            ("limit", .mk "integer" none none none)], ["customerid"]⟩⟩
        ["customerId"] "query orders" acceptAllExec).getModelFunction.parameters.properties
      ↔ ("limit", FunctionDefinitionArgument.mk "integer" none none none) ∈
        [("customerid", FunctionDefinitionArgument.mk "string" none none none),
          ("limit", FunctionDefinitionArgument.mk "integer" none none none)])
    ∧ mapGetCI
        (addOrOverrideFromContext [] ["customerId"]
          [("CUSTOMERID", .str "c-123")]) "customerId" = some (.str "c-123") :=
  ⟨(claim4_context_scoping _).2.2.1 _ (by intro k hk; fin_cases hk; decide),
    (claim4_context_scoping
      (APIFunction.mk ⟨"orders", none, ⟨"object", [], []⟩⟩ ["customerId"]
        "query orders" acceptAllExec)).2.2.2.2.2.2.2.2 [] _ "customerId"
      (.str "c-123") (by decide) (by decide)⟩

/-- C7: `validateAndExecuteFromString` never raises: when the JSON parse of
the argument payload fails, it returns the fixed-format retry message built
from the tool's name and a `Malformed JSON: ...` error; when the parse
succeeds but validation fails, it returns the same fixed-format retry
message embedding the validation error.  The last conjunct spells out the
fixed format, showing the tool name and the error phrase embedded in it. -/
theorem claim7_from_string_never_raises :
    (∀ (f : APIFunction)
      (jsonParse : String → Except String (List (String × JValue)))
      (s : String) (context : List (String × JValue)) (e : String),
      jsonParse s = .error e →
      f.validateAndExecuteFromString jsonParse s context =
        createInvalidCallMessage f.function.name
          (some ("Malformed JSON: " ++ e)))
    ∧ (∀ (f : APIFunction)
      (jsonParse : String → Except String (List (String × JValue)))
      (s : String) (context : List (String × JValue))
      (args : List (String × JValue)),
      jsonParse s = .ok args → (f.validate args).valid = false →
      f.validateAndExecuteFromString jsonParse s context =
        createInvalidCallMessage f.function.name
          (f.validate args).errorMessage)
    ∧ (∀ name msg, createInvalidCallMessage name (some msg) =
      "It looks like you tried to call function `" ++ name ++ "`, " ++
      "but this has failed with the following error: " ++ msg ++ ". " ++
      "Please retry to call the function again. " ++
      "Send ONLY the JSON as a response.") := by
  refine ⟨?_, ?_, ?_⟩
  · intro f jsonParse s context e hparse
    rw [APIFunction.validateAndExecuteFromString, hparse]
  · intro f jsonParse s context args hparse hvalid
    simp only [APIFunction.validateAndExecuteFromString, hparse,
      APIFunction.validateAndExecute, hvalid, Bool.false_eq_true, if_false]
  · intro name msg
    simp [createInvalidCallMessage, String.append_assoc]

/-- Witness for C7 at the spec's concrete scenario: the payload
`"\x7bmalformed"` makes the parser fail, and the call returns the retry
message naming the tool and the malformed-JSON phrase; a rejecting executor
makes a well-formed payload come back as the retry message embedding the
validation error. -/
theorem claim7_witness :
    (APIFunction.mk ⟨"orders", none, ⟨"object", [], []⟩⟩ [] "query orders"
        acceptAllExec).validateAndExecuteFromString
      (fun _ => .error "Unexpected token m in JSON at position 1")
      "\x7bmalformed" [] =
      createInvalidCallMessage "orders"
        (some "Malformed JSON: Unexpected token m in JSON at position 1")
    ∧ (APIFunction.mk ⟨"orders", none, ⟨"object", [], []⟩⟩ [] "query orders"
        rejectArgsExec).validateAndExecuteFromString
      (fun _ => .ok []) "\x7b\x7d" [] =
      createInvalidCallMessage "orders" (some "args invalid") :=
  ⟨claim7_from_string_never_raises.1 _ _ "\x7bmalformed" [] _ rfl,
    claim7_from_string_never_raises.2.1 _ _ "\x7b\x7d" [] [] rfl rfl⟩

/-- C9: `APIFunction.validate` (and therefore `validateAndExecute`)
validates the caller's arguments against the model-facing, context-filtered
definition returned by `getModelFunction`, not against the full definition;
a `required` name matching a context key is absent from the model-facing
`required` list, so under the structural acceptance rule a caller omitting
it still passes validation. -/
theorem claim9_validate_against_model :
    (∀ (f : APIFunction) (args : List (String × JValue)),
      f.validate args = f.apiExecutor.validateArgs f.getModelFunction args)
    ∧ (∀ (f : APIFunction) (r : String),
      (∃ k ∈ f.contextKeys, toLowerCase r = toLowerCase k) →
      r ∉ f.getModelFunction.parameters.required)
    ∧ (∀ (fn : FunctionDefinition) (K : List String) (q : String)
      (args : List (String × JValue)),
      (∀ r ∈ (APIFunction.mk fn K q
          specStructuralExecutor).getModelFunction.parameters.required,
        args.any (fun kv => kv.fst == r) = true) →
      ((APIFunction.mk fn K q specStructuralExecutor).validate args).valid
        = true) := by
  refine ⟨fun _ _ => rfl, ?_, ?_⟩
  · intro f r hmatch hr
    obtain ⟨k, hk, hlow⟩ := hmatch
    exact (getFieldFilter_eq_true_iff _ _).mp (List.mem_filter.mp hr).2 k hk
      hlow
  · intro fn K q args hall
    have hthis : ((APIFunction.mk fn K q
        specStructuralExecutor).getModelFunction.parameters.required.all
        (fun r => args.any (fun kv => kv.fst == r))) = true :=
      List.all_eq_true.mpr hall
    show (specStructuralValidate
      (APIFunction.mk fn K q specStructuralExecutor).getModelFunction
      args).valid = true
    rw [specStructuralValidate, if_pos hthis]

/-- Witness for C9: the `orders` tool requires `customerid`, which is also a
context key; with the structural validator, the empty argument map — which
omits `customerid` — still validates. -/
theorem claim9_witness :
    ((APIFunction.mk
      ⟨"orders", none, ⟨"object",
        [("customerid", .mk "string" none none none)], ["customerid"]⟩⟩
      ["customerid"] "query orders" specStructuralExecutor).validate
      []).valid = true :=
  claim9_validate_against_model.2.2
    ⟨"orders", none, ⟨"object",
      [("customerid", FunctionDefinitionArgument.mk "string" none none none)],
      ["customerid"]⟩⟩
    ["customerid"] "query orders" [] (by decide)

/-- C5: `convertSchema` is a total function (it never raises): it is the
list of query-field conversions followed by the mutation-field conversions,
each field contributing its converted operation exactly when the operation
filter accepts it and the conversion does not throw; a field that is
rejected by the filter or whose conversion throws contributes nothing and
leaves every other field's result unchanged. -/
theorem claim5_per_operation_isolation :
    ∀ (env : SchemaEnv) (cfg : GraphQLSchemaConverterConfig)
      (ex : APIQueryExecutor) (ks : List String),
    (convertSchema env cfg ex ks =
      env.queryFields.filterMap
        (createApiFunctionFromGraphQLOperation env cfg ex ks "query")
      ++ env.mutationFields.filterMap
        (createApiFunctionFromGraphQLOperation env cfg ex ks "mutation"))
    ∧ (∀ fn, fn ∈ convertSchema env cfg ex ks ↔
      ((∃ f ∈ env.queryFields, cfg.operationFilter "query" f.name = true ∧
        convertToApiFunction env cfg ex ks "query" f = .ok fn)
       ∨ (∃ f ∈ env.mutationFields,
        cfg.operationFilter "mutation" f.name = true ∧
        convertToApiFunction env cfg ex ks "mutation" f = .ok fn)))
    ∧ (∀ (op : String) (fs1 fs2 : List GraphQLField) (f : GraphQLField),
      (cfg.operationFilter op f.name = false ∨
        ∃ e, convertToApiFunction env cfg ex ks op f = .error e) →
      (fs1 ++ f :: fs2).filterMap
        (createApiFunctionFromGraphQLOperation env cfg ex ks op) =
      (fs1 ++ fs2).filterMap
        (createApiFunctionFromGraphQLOperation env cfg ex ks op)) := by
  intro env cfg ex ks
  have hmem : ∀ (op : String) (fs : List GraphQLField) (fn : APIFunction),
      fn ∈ fs.filterMap
        (createApiFunctionFromGraphQLOperation env cfg ex ks op) ↔
      ∃ f ∈ fs, cfg.operationFilter op f.name = true ∧
        convertToApiFunction env cfg ex ks op f = .ok fn := by
    intro op fs fn
    rw [List.mem_filterMap]
    constructor
    · rintro ⟨f, hf, hcreate⟩
      refine ⟨f, hf, ?_⟩
      by_cases hfil : cfg.operationFilter op f.name = true
      · refine ⟨hfil, ?_⟩
        rw [createApiFunctionFromGraphQLOperation, if_pos hfil] at hcreate
        cases hconv : convertToApiFunction env cfg ex ks op f with
        | ok g => rw [hconv] at hcreate; cases hcreate; rfl
        | error e => rw [hconv] at hcreate; cases hcreate
      · rw [createApiFunctionFromGraphQLOperation,
          if_neg hfil] at hcreate
        cases hcreate
    · rintro ⟨f, hf, hfil, hconv⟩
      refine ⟨f, hf, ?_⟩
      rw [createApiFunctionFromGraphQLOperation, if_pos hfil, hconv]
      rfl
  refine ⟨?_, ?_, ?_⟩
  · rw [convertSchema, List.filterMap_map, List.filterMap_map]
    rfl
  · intro fn
    rw [convertSchema, List.mem_append, List.filterMap_map,
      List.filterMap_map]
    constructor
    · rintro (h | h)
      · exact Or.inl ((hmem "query" env.queryFields fn).mp
          (by simpa using h))
      · exact Or.inr ((hmem "mutation" env.mutationFields fn).mp
          (by simpa using h))
    · rintro (h | h)
      · exact Or.inl (by
          simpa using (hmem "query" env.queryFields fn).mpr h)
      · exact Or.inr (by
          simpa using (hmem "mutation" env.mutationFields fn).mpr h)
  · intro op fs1 fs2 f hskip
    have hnone : createApiFunctionFromGraphQLOperation env cfg ex ks op f
        = none := by
      rcases hskip with hfil | ⟨e, herr⟩
      · rw [createApiFunctionFromGraphQLOperation, if_neg (by simp [hfil])]
      · by_cases hfil : cfg.operationFilter op f.name = true
        · rw [createApiFunctionFromGraphQLOperation, if_pos hfil, herr]
          rfl
        · rw [createApiFunctionFromGraphQLOperation, if_neg hfil]
    rw [List.filterMap_append, List.filterMap_append]
    congr 1
    rw [List.filterMap_cons, hnone]

/-- Witness for C5: a field named `internalDebug` rejected by an
ignore-prefix-style filter contributes nothing to the conversion of its
field list. -/
theorem claim5_witness :
    ([] ++ GraphQLField.mk "internalDebug" (.scalar "Int") [] none ::
        [GraphQLField.mk "flights" (.scalar "Int") [] none]).filterMap
      (createApiFunctionFromGraphQLOperation ⟨[], [], [], []⟩
        ⟨fun _ n => !(n == "internalDebug"), 3⟩ acceptAllExec [] "query") =
    ([] ++ [GraphQLField.mk "flights" (.scalar "Int") [] none]).filterMap
      (createApiFunctionFromGraphQLOperation ⟨[], [], [], []⟩
        ⟨fun _ n => !(n == "internalDebug"), 3⟩ acceptAllExec [] "query") :=
  (claim5_per_operation_isolation ⟨[], [], [], []⟩
      ⟨fun _ n => !(n == "internalDebug"), 3⟩ acceptAllExec []).2.2
    "query" [] [GraphQLField.mk "flights" (.scalar "Int") [] none]
    (GraphQLField.mk "internalDebug" (.scalar "Int") [] none)
    (Or.inl (by decide))

/-- Witness for C10 at a concrete miss: one tool named `a`, a call named
`b`; the single-call path resolves to the empty string. -/
theorem claim10_witness :
    executeToolsSingle ⟨"b", []⟩
      [⟨⟨"a", none, ⟨"object", [], []⟩⟩, [], "query a() \x7b\n\x7d",
        acceptAllExec⟩] = "" :=
  claim10_executeTools.1 _ _ (by
    intro t ht
    simp only [List.mem_singleton] at ht
    subst ht
    decide)

end Acorn
